import Mathlib

/-!
Verification of the RAxML-NG log parser (src/rules/scripts/raxmlng_parser.py).

A log file is modelled as the ordered sequence of its text lines, each line as
its list of characters.  Python string primitives used by the parser
(str.split with a one-character separator, str.split with maxsplit 1,
whitespace str.split, str.strip, int(), float(), substring and prefix tests)
are embedded as executable functions on character lists.  Python float values
that appear in these logs are plain decimal literals, so float() is modelled
as exact parsing into the rationals (exponents, inf, nan and underscore
grouping, which Python float also accepts, never occur in the parsed tokens
and are not modelled).  Python exceptions are modelled by an explicit result
type; distinct exception classes are distinguished, exception messages are
dropped.
-/

namespace RaxmlngParser

/-- A line of a log file, as its list of characters. -/
abbrev Line := List Char

/-- Conversion from a Lean string literal to a line. -/
def ofStr (s : String) : Line := s.toList

/-- ASCII whitespace, the characters stripped by str.strip and separating
tokens for whitespace str.split (the Unicode-only whitespace characters never
occur in these logs). -/
def isWS (c : Char) : Bool :=
  c == ' ' || c == '\t' || c == '\n' || c == '\r' || c == '\x0b' || c == '\x0c'

/-- Python str.strip(): drop leading and trailing whitespace. -/
def pyStrip (l : Line) : Line :=
  ((l.dropWhile isWS).reverse.dropWhile isWS).reverse

/-- Does the first list occur at the head of the second one? -/
def isPrefixB : Line → Line → Bool
  | [], _ => true
  | _ :: _, [] => false
  | a :: ps, b :: ls => a == b && isPrefixB ps ls

/-- Python substring test (pat in line): does pat occur anywhere in the line? -/
def isInfixB (pat : Line) : Line → Bool
  | [] => isPrefixB pat []
  | c :: cs => isPrefixB pat (c :: cs) || isInfixB pat cs

/-- Python str.split(sep) for a one-character separator: split at every
occurrence of sep, keeping empty pieces.  The recursive result is never
empty, so the inner match only normalizes its shape. -/
def pySplit (sep : Char) : Line → List Line
  | [] => [[]]
  | c :: cs =>
    match pySplit sep cs with
    | [] => [[c]]
    | p :: ps => if c == sep then [] :: p :: ps else (c :: p) :: ps

/-- Python str.split(sep, 1) for a one-character separator: split at the
first occurrence of sep only. -/
def pySplit1 (sep : Char) : Line → List Line
  | [] => [[]]
  | c :: cs =>
    if c == sep then [[], cs]
    else
      match pySplit1 sep cs with
      | [] => [[c]]
      | p :: ps => (c :: p) :: ps

/-- Helper for whitespace split: cur is the current token, reversed. -/
def pySplitWsAux (cur : Line) : Line → List Line
  | [] => if cur.isEmpty then [] else [cur.reverse]
  | c :: cs =>
    if isWS c then
      if cur.isEmpty then pySplitWsAux [] cs else cur.reverse :: pySplitWsAux [] cs
    else pySplitWsAux (c :: cur) cs

/-- Python str.split() without a separator: split on runs of whitespace,
dropping empty tokens. -/
def pySplitWs (l : Line) : List Line := pySplitWsAux [] l

/-- Numeric value of a list of decimal digits. -/
def digitsToNat (ds : Line) : Nat :=
  ds.foldl (fun n c => 10 * n + (c.toNat - 48)) 0

/-- Value of a nonempty all-digit list, none otherwise. -/
def digitsVal? (ds : Line) : Option Nat :=
  if ds.isEmpty then none
  else if ds.all Char.isDigit then some (digitsToNat ds)
  else none

/-- Python int(): strip whitespace, optional sign, then a nonempty digit
sequence; anything else raises ValueError, modelled as none. -/
def pyInt? (l : Line) : Option Int :=
  match pyStrip l with
  | '+' :: ds => (digitsVal? ds).map Int.ofNat
  | '-' :: ds => (digitsVal? ds).map (fun n => -(n : Int))
  | s => (digitsVal? s).map Int.ofNat

/-- Unsigned decimal literal: digits, optionally a dot and further digits,
with at least one digit in total, valued exactly in the rationals.  The
value of "i.f" with k fractional digits is (i * 10 ^ k + f) / 10 ^ k; it is
built with mkRat, which is the same rational as the division. -/
def decimalVal? (t : Line) : Option ℚ :=
  let ip := t.takeWhile Char.isDigit
  let rest := t.dropWhile Char.isDigit
  match rest with
  | [] => if ip.isEmpty then none else some (mkRat (digitsToNat ip) 1)
  | '.' :: fr =>
    if fr.all Char.isDigit && !(ip.isEmpty && fr.isEmpty) then
      some (mkRat (digitsToNat ip * 10 ^ fr.length + digitsToNat fr) (10 ^ fr.length))
    else none
  | _ => none

/-- Python float() on the decimal literals occurring in these logs: strip
whitespace, optional sign, then an unsigned decimal literal. -/
def pyFloat? (l : Line) : Option ℚ :=
  match pyStrip l with
  | '+' :: t => decimalVal? t
  | '-' :: t => (decimalVal? t).map Rat.neg
  | t => decimalVal? t

/-- Rejoin split pieces with the separator: the inverse of pySplit. -/
def joinSep (sep : Char) : List Line → Line
  | [] => []
  | [x] => x
  | x :: xs => x ++ sep :: joinSep sep xs

/-- The suffix of the line after the first occurrence of pat, if any. -/
def afterFirst (pat : Line) : Line → Option Line
  | [] => if pat.isEmpty then some [] else none
  | c :: cs =>
    if isPrefixB pat (c :: cs) then some ((c :: cs).drop pat.length)
    else afterFirst pat cs

/-- The Python exceptions the parser can raise.  valueError covers the
explicit raise statements, failed float()/int() conversions and failed tuple
unpacking of split results; indexError covers out-of-range list indexing;
notFound models the failure of the external utility get_single_value_from_file
when its marker is absent; toolError models an exception raised by the
external RAxMLNG tool invocation.  Exception messages are dropped. -/
inductive PyErr where
  | valueError
  | indexError
  | notFound
  | toolError
deriving DecidableEq

/-- Result of running a Python function: a value, or a raised exception. -/
inductive Res (α : Type) where
  | ok (val : α)
  | err (e : PyErr)
deriving DecidableEq

/-- Value returned by get_raxmlng_starting_llh: a parsed log-likelihood, or
the sentinel negative infinity (-np.inf in the source). -/
inductive StartLLH where
  | val (q : ℚ)
  | negInf
deriving DecidableEq

/-- Modelled from the spec: the marker-search primitive
get_single_value_from_file lives in the external utils module, which is not
under src.  Per the spec it returns the numeric value following the first
line containing the marker and fails with NotFound when no such line exists.
The numeric value following the marker is taken to be the first whitespace
token after the marker occurrence, parsed as a float. -/
def get_single_value_from_file (content : List Line) (marker : Line) : Res ℚ :=
  match content.find? (fun l => isInfixB marker l) with
  | none => .err .notFound
  | some l =>
    match (afterFirst marker l).bind (fun r => (pySplitWs r).head?.bind pyFloat?) with
    | some q => .ok q
    | none => .err .valueError

/-- Modelled from the spec: the marker-search primitive
get_multiple_values_from_file lives in the external utils module, which is
not under src.  Per the spec it returns, in file order, the numeric value
from every line containing the marker; a line whose token does not parse
contributes nothing. -/
def get_multiple_values_from_file (content : List Line) (marker : Line) : List ℚ :=
  content.filterMap (fun l =>
    if isInfixB marker l then
      (afterFirst marker l).bind (fun r => (pySplitWs r).head?.bind pyFloat?)
    else none)

/-- raxmlng_parser.py lines 16-18: the value of the first
"Final LogLikelihood:" line, via the external utility. -/
def get_raxmlng_llh (content : List Line) : Res ℚ :=
  get_single_value_from_file content (ofStr "Final LogLikelihood:")

/-- raxmlng_parser.py lines 21-35: on the first line containing
"Initial branch length optimization", split on every right bracket (exactly
two parts required by tuple unpacking), split the first part on every single
space (again exactly two parts), parse the second token as a float.  When no
line contains the marker the source warns and returns -np.inf; the warning
is a non-fatal side effect outside the return value. -/
def get_raxmlng_starting_llh (content : List Line) : Res StartLLH :=
  match content.find? (fun l => isInfixB (ofStr "Initial branch length optimization") l) with
  | none => .ok .negInf
  | some line =>
    match pySplit ']' line with
    | [numbers, _] =>
      match pySplit ' ' numbers with
      | [_, llh] =>
        match pyFloat? llh with
        | some q => .ok (.val q)
        | none => .err .valueError
      | _ => .err .valueError
    | _ => .err .valueError

/-- raxmlng_parser.py lines 38-40: the values of all
"Final LogLikelihood:" lines, via the external utility. -/
def get_all_raxmlng_llhs (content : List Line) : List ℚ :=
  get_multiple_values_from_file content (ofStr "Final LogLikelihood:")

/-- Python max folding step over a list: keep the current value unless the
next one is strictly greater. -/
def pyMax (acc x : ℚ) : ℚ := if acc < x then x else acc

/-- raxmlng_parser.py lines 43-45: max() of all parsed log-likelihoods;
Python max of an empty sequence raises ValueError. -/
def get_best_raxmlng_llh (content : List Line) : Res ℚ :=
  match get_all_raxmlng_llhs content with
  | [] => .err .valueError
  | q :: qs => .ok (qs.foldl pyMax q)

/-- raxmlng_parser.py lines 48-61: parse one elapsed-time line.  With
"restarts" in the line: split on every slash (exactly two parts by tuple
unpacking), take token index 1 of the right part split on single spaces.
Otherwise: take token index 2 of the line split on single spaces.  Missing
indices raise IndexError, failed float() raises ValueError. -/
def get_raxmlng_time_from_line (line : Line) : Res ℚ :=
  if isInfixB (ofStr "restarts") line then
    match pySplit '/' line with
    | [_, right] =>
      match (pySplit ' ' right)[1]? with
      | some v =>
        match pyFloat? v with
        | some q => .ok q
        | none => .err .valueError
      | none => .err .indexError
    | _ => .err .valueError
  else
    match (pySplit ' ' line)[2]? with
    | some v =>
      match pyFloat? v with
      | some q => .ok q
      | none => .err .valueError
    | none => .err .indexError

/-- raxmlng_parser.py lines 64-75: parse the first "Elapsed time:" line;
raise ValueError when there is none. -/
def get_raxmlng_elapsed_time (content : List Line) : Res ℚ :=
  match content.find? (fun l => isInfixB (ofStr "Elapsed time:") l) with
  | some line => get_raxmlng_time_from_line line
  | none => .err .valueError

/-- Loop body of get_raxmlng_runtimes: parse every "Elapsed time:" line in
order, propagating the first exception. -/
def runtimesAux : List Line → Res (List ℚ)
  | [] => .ok []
  | l :: ls =>
    if isInfixB (ofStr "Elapsed time:") l then
      match get_raxmlng_time_from_line l with
      | .ok t =>
        match runtimesAux ls with
        | .ok ts => .ok (t :: ts)
        | .err e => .err e
      | .err e => .err e
    else runtimesAux ls

/-- raxmlng_parser.py lines 78-94: all parsed elapsed times in file order;
raise ValueError when the collected list is empty. -/
def get_raxmlng_runtimes (content : List Line) : Res (List ℚ) :=
  match runtimesAux content with
  | .err e => .err e
  | .ok [] => .err .valueError
  | .ok (t :: ts) => .ok (t :: ts)

/-- Strip a literal pattern from the head of a line, if present. -/
def stripPrefixL : Line → Line → Option Line
  | [], l => some l
  | _ :: _, [] => none
  | a :: ps, b :: ls => if a == b then stripPrefixL ps ls else none

/-- Consume at least one whitespace character, then the maximal whitespace
run, as the regex piece matching one-or-more whitespace does when it is
followed by a non-whitespace literal. -/
def takeWS1 : Line → Option Line
  | [] => none
  | c :: cs => if isWS c then some (cs.dropWhile isWS) else none

/-- Match, at the head of the line, the part of the SPR-round regex that
follows the keyword: one-or-more whitespace, "spr", one-or-more whitespace,
"round", one-or-more whitespace, then a captured nonempty digit run (the
capture is greedy, so it is the maximal digit run). -/
def matchSprTailAt (l : Line) : Option Nat :=
  (takeWS1 l).bind fun l1 =>
  (stripPrefixL (ofStr "spr") l1).bind fun l2 =>
  (takeWS1 l2).bind fun l3 =>
  (stripPrefixL (ofStr "round") l3).bind fun l4 =>
  (takeWS1 l4).bind fun l5 =>
  let ds := l5.takeWhile Char.isDigit
  if ds.isEmpty then none else some (digitsToNat ds)

/-- Match the whole SPR-round regex (keyword, flexible whitespace, "spr",
"round", captured digits) at the head of the line. -/
def matchSprAt (kw l : Line) : Option Nat :=
  (stripPrefixL kw l).bind matchSprTailAt

/-- regex.search of the SPR-round pattern: the leftmost match wins. -/
def searchSpr (kw : Line) : Line → Option Nat
  | [] => none
  | c :: cs =>
    match matchSprAt kw (c :: cs) with
    | some n => some n
    | none => searchSpr kw cs

/-- raxmlng_parser.py lines 106-116, one loop iteration: each category first
requires the literal single-space substring to occur in the line, then
applies the flexible-whitespace regex and keeps the maximum captured round
number. -/
def sprStep (sf : Nat × Nat) (line : Line) : Nat × Nat :=
  let s :=
    if isInfixB (ofStr "SLOW spr round") line then
      match searchSpr (ofStr "SLOW") line with
      | some n => max sf.1 n
      | none => sf.1
    else sf.1
  let f :=
    if isInfixB (ofStr "FAST spr round") line then
      match searchSpr (ofStr "FAST") line with
      | some n => max sf.2 n
      | none => sf.2
    else sf.2
  (s, f)

/-- raxmlng_parser.py lines 97-118: maximum SLOW and FAST spr round numbers,
starting from (0, 0). -/
def get_raxmlng_num_spr_rounds (content : List Line) : Nat × Nat :=
  content.foldl sprStep (0, 0)

/-- raxmlng_parser.py lines 168-174, the per-line parse of a parsimony-score
line: split on every colon with tuple unpacking into exactly two parts, then
int() of the stripped remainder.  Both failure modes raise ValueError and are
collapsed into none. -/
def parsimonyLineVal? (l : Line) : Option Int :=
  match pySplit ':' l with
  | [_, score] => pyInt? (pyStrip score)
  | _ => none

/-- raxmlng_parser.py lines 163-176: the scores of all lines containing
"Parsimony score" in file order, propagating the first exception. -/
def get_all_parsimony_scores : List Line → Res (List Int)
  | [] => .ok []
  | l :: ls =>
    if isInfixB (ofStr "Parsimony score") l then
      match parsimonyLineVal? l with
      | some n =>
        match get_all_parsimony_scores ls with
        | .ok ns => .ok (n :: ns)
        | .err e => .err e
      | none => .err .valueError
    else get_all_parsimony_scores ls

/-- The trimmed remainder after the first colon of a line, none when the line
has no colon (in the source, tuple unpacking of str.split(colon, 1) raises
ValueError in that case). -/
def colonSuffix1? (line : Line) : Option Line :=
  match pySplit1 ':' line with
  | [_, res] => some (pyStrip res)
  | _ => none

/-- One of the three independent if statements in the loop of
get_model_parameter_estimates (raxmlng_parser.py lines 150-158): when the
line starts with the prefix, replace the stored value by the trimmed
first-colon suffix, raising ValueError when the line has no colon. -/
def mpeUpd (pfx line : Line) (cur : Option Line) : Res (Option Line) :=
  if isPrefixB pfx line then
    match colonSuffix1? line with
    | some r => .ok (some r)
    | none => .err .valueError
  else .ok cur

/-- Loop body of get_model_parameter_estimates: the three category updates
applied in source order. -/
def mpeStep (st : Option Line × Option Line × Option Line) (line : Line) :
    Res (Option Line × Option Line × Option Line) :=
  match mpeUpd (ofStr "Rate heterogeneity") line st.1 with
  | .err e => .err e
  | .ok rh =>
    match mpeUpd (ofStr "Base frequencies") line st.2.1 with
    | .err e => .err e
    | .ok bf =>
      match mpeUpd (ofStr "Substitution rates") line st.2.2 with
      | .err e => .err e
      | .ok sr => .ok (rh, bf, sr)

/-- The scan of get_model_parameter_estimates over the lines. -/
def mpeScan (st : Option Line × Option Line × Option Line) :
    List Line → Res (Option Line × Option Line × Option Line)
  | [] => .ok st
  | l :: ls =>
    match mpeStep st l with
    | .ok st2 => mpeScan st2 ls
    | .err e => .err e

/-- raxmlng_parser.py lines 137-160: last trimmed colon-suffix of the lines
starting with "Rate heterogeneity", "Base frequencies" and
"Substitution rates"; categories never matched stay none. -/
def get_model_parameter_estimates (content : List Line) :
    Res (Option Line × Option Line × Option Line) :=
  mpeScan (none, none, none) content

/-- raxmlng_parser.py lines 184-188, the per-line parse of an
"Alignment sites" line: split on every colon with tuple unpacking into
exactly two parts, int() each part of the slash-split of the remainder (a
list comprehension), unpack into exactly two values and keep the second.
All failure modes raise ValueError and are collapsed into none. -/
def sitesParse (line : Line) : Option Int :=
  match pySplit ':' line with
  | [_, numbers] =>
    match (pySplit '/' numbers).mapM pyInt? with
    | some [_, p] => some p
    | _ => none
  | _ => none

/-- Exact division of a parsed percentage by 100, built with mkRat: the
rational q.num / (q.den * 100) equals q / 100. -/
def div100 (q : ℚ) : ℚ := mkRat q.num (q.den * 100)

/-- raxmlng_parser.py lines 189-198, the per-line parse of a "Gaps" or
"Invariant sites" line: split on every colon into exactly two parts, strip
the remainder, split it on single spaces into exactly two tokens, float()
the first token and divide by 100.  All failure modes raise ValueError and
are collapsed into none. -/
def pctParse (line : Line) : Option ℚ :=
  match pySplit ':' line with
  | [_, number] =>
    match pySplit ' ' (pyStrip number) with
    | [percentage, _] => (pyFloat? percentage).map div100
    | _ => none
  | _ => none

/-- Loop body of get_patterns_gaps_invariant (raxmlng_parser.py lines
183-198): an if/elif chain over the three category prefixes. -/
def pgiStep (st : Option Int × Option ℚ × Option ℚ) (line : Line) :
    Res (Option Int × Option ℚ × Option ℚ) :=
  if isPrefixB (ofStr "Alignment sites") line then
    match sitesParse line with
    | some p => .ok (some p, st.2.1, st.2.2)
    | none => .err .valueError
  else if isPrefixB (ofStr "Gaps") line then
    match pctParse line with
    | some g => .ok (st.1, some g, st.2.2)
    | none => .err .valueError
  else if isPrefixB (ofStr "Invariant sites") line then
    match pctParse line with
    | some i => .ok (st.1, st.2.1, some i)
    | none => .err .valueError
  else .ok st

/-- The scan of get_patterns_gaps_invariant over the lines. -/
def pgiScan (st : Option Int × Option ℚ × Option ℚ) :
    List Line → Res (Option Int × Option ℚ × Option ℚ)
  | [] => .ok st
  | l :: ls =>
    match pgiStep st l with
    | .ok st2 => pgiScan st2 ls
    | .err e => .err e

/-- raxmlng_parser.py lines 179-203: scan every line, then raise ValueError
when any of the three values is still unset. -/
def get_patterns_gaps_invariant (content : List Line) : Res (Int × ℚ × ℚ) :=
  match pgiScan (none, none, none) content with
  | .err e => .err e
  | .ok (some p, some g, some i) => .ok (p, g, i)
  | .ok _ => .err .valueError

/-- Outcome of the external RAxMLNG rfdistance invocation: a result triple
(absolute RF, relative RF, third value), or a raised exception. -/
inductive ToolOutcome where
  | ok (absRF relRF third : ℚ)
  | raised
deriving DecidableEq

/-- The filesystem state touched by rel_rfdistance_starting_final: existing
directories, and existing files as path-content pairs. -/
structure FS where
  dirs : List Line
  files : List (Line × Line)
deriving DecidableEq

/-- TemporaryDirectory() entry: a fresh directory is created. -/
def mkdirFS (d : Line) (fs : FS) : FS := ⟨d :: fs.dirs, fs.files⟩

/-- open(path, w) followed by write: the file now exists with the written
content (a previous file at the same path is truncated). -/
def writeFS (p content : Line) (fs : FS) : FS :=
  ⟨fs.dirs, (p, content) :: fs.files.filter (fun e => !(e.1 == p))⟩

/-- Is the path inside the directory, that is, does it extend the directory
name with a path separator? -/
def underDir (d p : Line) : Bool := isPrefixB (d ++ ['/']) p

/-- TemporaryDirectory() exit (run on every exit path, normal or
exceptional): remove the directory and everything inside it. -/
def rmtreeFS (d : Line) (fs : FS) : FS :=
  ⟨fs.dirs.filter (fun x => !(x == d || underDir d x)),
   fs.files.filter (fun e => !(underDir d e.1))⟩

/-- raxmlng_parser.py lines 121-134: inside a TemporaryDirectory block,
write the two stripped newline-separated trees to the path
tmpdir ++ ".trees" (string concatenation, exactly as in the source: no path
separator is inserted, so the file is a sibling of the directory), invoke
the external tool, return the relative RF distance.  The with block removes
the temporary directory on both exit paths. -/
def rel_rfdistance_starting_final (raxmlng : ToolOutcome)
    (tmpdir newick_starting newick_final : Line) (fs : FS) : Res ℚ × FS :=
  let fs1 := mkdirFS tmpdir fs
  let trees := tmpdir ++ ofStr ".trees"
  let fs2 := writeFS trees (pyStrip newick_starting ++ '\n' :: pyStrip newick_final) fs1
  match raxmlng with
  | .ok _ rel _ => (.ok rel, rmtreeFS tmpdir fs2)
  | .raised => (.err .toolError, rmtreeFS tmpdir fs2)

/-! Claim-side definitions.  The functions below follow the words of the
claims of the specification, to be compared against the source embeddings
above.  Functions named ...Claim transcribe a claim as stated; functions
named ...Amended transcribe the amended reading forced by a
counterexample. -/

/-- Claim C1 as stated, simple branch: the value of the first
"Elapsed time:" line is the third whitespace-separated token parsed as a
float; restart branch: the first whitespace-separated token after the first
slash parsed as a float (the total seconds after the slash). -/
def elapsedTimeClaim (content : List Line) : Res ℚ :=
  match content.find? (fun l => isInfixB (ofStr "Elapsed time:") l) with
  | none => .err .valueError
  | some line =>
    if isInfixB (ofStr "restarts") line then
      match pySplit1 '/' line with
      | [_, right] =>
        match (pySplitWs right).head? with
        | some v =>
          match pyFloat? v with
          | some q => .ok q
          | none => .err .valueError
        | none => .err .indexError
      | _ => .err .valueError
    else
      match (pySplitWs line)[2]? with
      | some v =>
        match pyFloat? v with
        | some q => .ok q
        | none => .err .valueError
      | none => .err .indexError

/-- Claim C3 as stated: for each category, the maximum captured round number
over every line matched by the flexible-whitespace regex, with no literal
substring precondition. -/
def sprRoundCountsClaim (content : List Line) : Nat × Nat :=
  (content.foldl (fun m l =>
      match searchSpr (ofStr "SLOW") l with
      | some n => max m n
      | none => m) 0,
   content.foldl (fun m l =>
      match searchSpr (ofStr "FAST") l with
      | some n => max m n
      | none => m) 0)

/-- Claim C3 amended: the regex only counts on lines that also contain the
literal single-space substring of the category; each component is the
maximum of those captures, 0 when there are none. -/
def sprRoundCountsAmended (content : List Line) : Nat × Nat :=
  ((content.filterMap (fun l =>
      if isInfixB (ofStr "SLOW spr round") l then searchSpr (ofStr "SLOW") l
      else none)).foldl max 0,
   (content.filterMap (fun l =>
      if isInfixB (ofStr "FAST spr round") l then searchSpr (ofStr "FAST") l
      else none)).foldl max 0)

/-- Claim C6 as stated, per line: split the line on its first colon and
parse the trimmed remainder as an integer. -/
def parsimonyLineClaimVal? (l : Line) : Option Int :=
  match pySplit1 ':' l with
  | [_, rest] => pyInt? (pyStrip rest)
  | _ => none

/-- Claim C6 as stated: the integers obtained from every line containing
"Parsimony score" by first-colon splitting, in file order; the empty
sequence when there is no such line. -/
def parsimonyScoresClaim : List Line → Res (List Int)
  | [] => .ok []
  | l :: ls =>
    if isInfixB (ofStr "Parsimony score") l then
      match parsimonyLineClaimVal? l with
      | some n =>
        match parsimonyScoresClaim ls with
        | .ok ns => .ok (n :: ns)
        | .err e => .err e
      | none => .err .valueError
    else parsimonyScoresClaim ls

/-- One independent category scan: over the lines starting with the prefix,
later parsed values overwrite earlier ones, and a matching line that fails
to parse raises ValueError. -/
def numCatScan {α : Type} (pfx : Line) (parse : Line → Option α) :
    Option α → List Line → Res (Option α)
  | cur, [] => .ok cur
  | cur, l :: ls =>
    if isPrefixB pfx l then
      match parse l with
      | some v => numCatScan pfx parse (some v) ls
      | none => .err .valueError
    else numCatScan pfx parse cur ls

/-- Combine three independent category results: any exception wins,
otherwise the triple of the three current values. -/
def combineO {α β γ : Type} (ra : Res (Option α)) (rb : Res (Option β))
    (rc : Res (Option γ)) : Res (Option α × Option β × Option γ) :=
  match ra with
  | .err _ => .err .valueError
  | .ok a =>
    match rb with
    | .err _ => .err .valueError
    | .ok b =>
      match rc with
      | .err _ => .err .valueError
      | .ok c => .ok (a, b, c)

/-- Claim C9 as stated: each component is the trimmed first-colon suffix of
the last line starting with the category prefix, null when no line matches;
no error is ever raised. -/
def modelParamsClaim (content : List Line) : Option Line × Option Line × Option Line :=
  (((content.filter (fun l => isPrefixB (ofStr "Rate heterogeneity") l)).getLast?).bind colonSuffix1?,
   ((content.filter (fun l => isPrefixB (ofStr "Base frequencies") l)).getLast?).bind colonSuffix1?,
   ((content.filter (fun l => isPrefixB (ofStr "Substitution rates") l)).getLast?).bind colonSuffix1?)

/-- Claim C9 amended: three independent last-occurrence scans, where a
matching line without a colon raises ValueError; missing categories stay
null and are never an error. -/
def modelParameterEstimatesAmended (content : List Line) :
    Res (Option Line × Option Line × Option Line) :=
  combineO
    (numCatScan (ofStr "Rate heterogeneity") colonSuffix1? none content)
    (numCatScan (ofStr "Base frequencies") colonSuffix1? none content)
    (numCatScan (ofStr "Substitution rates") colonSuffix1? none content)

/-- Claim C5 amended: three independent last-occurrence scans with the
parses of the source (second slash-separated integer of the colon suffix;
first of exactly two space-separated tokens of the stripped colon suffix,
as a float, divided by 100); an error when a matching line is malformed or
when any of the three values is still unset at the end. -/
def patternsGapsInvariantAmended (content : List Line) : Res (Int × ℚ × ℚ) :=
  match combineO
      (numCatScan (ofStr "Alignment sites") sitesParse none content)
      (numCatScan (ofStr "Gaps") pctParse none content)
      (numCatScan (ofStr "Invariant sites") pctParse none content) with
  | .err e => .err e
  | .ok (some p, some g, some i) => .ok (p, g, i)
  | .ok _ => .err .valueError

/-- The three-value example log of the specification for BestLogLikelihood:
three final log-likelihood lines valued -100.0, -95.5 and -110.2. -/
def finalLlhExampleLog : List Line :=
  [ofStr "Final LogLikelihood: -100.0", ofStr "Final LogLikelihood: -95.5",
   ofStr "Final LogLikelihood: -110.2"]

/-! Helper lemmas about the string primitives. -/

theorem pySplit_ne_nil (sep : Char) (l : Line) : pySplit sep l ≠ [] := by
  induction l with
  | nil => simp [pySplit]
  | cons c cs ih =>
    rw [pySplit]
    cases hp : pySplit sep cs with
    | nil => simp
    | cons p ps => cases h : (c == sep) <;> simp [h]

theorem pySplit_of_not_mem (sep : Char) : ∀ l : Line, sep ∉ l → pySplit sep l = [l] := by
  intro l
  induction l with
  | nil => intro _; rfl
  | cons c cs ih =>
    intro h
    have h1 : c ≠ sep := fun e => h (e ▸ List.mem_cons_self c cs)
    have h2 : sep ∉ cs := fun m => h (List.mem_cons_of_mem _ m)
    have hc : (c == sep) = false := beq_eq_false_iff_ne.mpr h1
    rw [pySplit, ih h2]
    simp [hc]

theorem pySplit_append_cons (sep : Char) : ∀ a b : Line, sep ∉ a →
    pySplit sep (a ++ sep :: b) = a :: pySplit sep b := by
  intro a
  induction a with
  | nil =>
    intro b _
    show pySplit sep (sep :: b) = [] :: pySplit sep b
    rw [pySplit]
    cases hp : pySplit sep b with
    | nil => exact absurd hp (pySplit_ne_nil sep b)
    | cons p ps => simp
  | cons c cs ih =>
    intro b h
    have h1 : c ≠ sep := fun e => h (e ▸ List.mem_cons_self c cs)
    have h2 : sep ∉ cs := fun m => h (List.mem_cons_of_mem _ m)
    have hc : (c == sep) = false := beq_eq_false_iff_ne.mpr h1
    show pySplit sep (c :: (cs ++ sep :: b)) = (c :: cs) :: pySplit sep b
    rw [pySplit, ih b h2]
    simp [hc]

/-! Claim theorems. -/

/-- C4 (confirmed): StartingLogLikelihood returns the float inside the
brackets after the timestamp of the first line containing
"Initial branch length optimization", and for every line sequence with no
such line it returns the negative-infinity sentinel without raising. -/
theorem get_raxmlng_starting_llh_spec (content : List Line) :
    (content.find? (fun l => isInfixB (ofStr "Initial branch length optimization") l) = none →
      get_raxmlng_starting_llh content = .ok .negInf)
    ∧ (∀ ts tok desc q,
      content.find? (fun l => isInfixB (ofStr "Initial branch length optimization") l) =
        some ('[' :: ts ++ ' ' :: tok ++ ']' :: desc) →
      ' ' ∉ ts → ']' ∉ ts → ' ' ∉ tok → ']' ∉ tok → ']' ∉ desc →
      pyFloat? tok = some q →
      get_raxmlng_starting_llh content = .ok (.val q)) := by
  constructor
  · intro h
    unfold get_raxmlng_starting_llh
    rw [h]
  · intro ts tok desc q hfind hs1 hb1 hs2 hb2 hb3 hq
    have hnb : ']' ∉ ('[' :: ts ++ ' ' :: tok) := by
      intro hm
      rcases List.mem_cons.mp hm with h | hm2
      · exact absurd h (by decide)
      rcases List.mem_append.mp hm2 with h | hm3
      · exact hb1 h
      rcases List.mem_cons.mp hm3 with h | h
      · exact absurd h (by decide)
      · exact hb2 h
    have hns : ' ' ∉ ('[' :: ts) := by
      intro hm
      rcases List.mem_cons.mp hm with h | h
      · exact absurd h (by decide)
      · exact hs1 h
    have h1 : pySplit ']' ('[' :: ts ++ ' ' :: tok ++ ']' :: desc) =
        [('[' :: ts ++ ' ' :: tok), desc] := by
      rw [pySplit_append_cons _ _ _ hnb, pySplit_of_not_mem _ _ hb3]
    have h2 : pySplit ' ' ('[' :: ts ++ ' ' :: tok) = [('[' :: ts), tok] := by
      rw [pySplit_append_cons _ _ _ hns, pySplit_of_not_mem _ _ hs2]
    unfold get_raxmlng_starting_llh
    rw [hfind]
    simp only [h1, h2, hq]

/-- C4 witness: the example line of the specification, evaluated through the
theorem. -/
theorem get_raxmlng_starting_llh_spec_witness :
    get_raxmlng_starting_llh
      [ofStr "[00:00:00 -8735.928562] Initial branch length optimization"] =
      .ok (.val (mkRat (-8735928562) 1000000)) :=
  (get_raxmlng_starting_llh_spec
      [ofStr "[00:00:00 -8735.928562] Initial branch length optimization"]).2
    (ofStr "00:00:00") (ofStr "-8735.928562")
    (ofStr " Initial branch length optimization") (mkRat (-8735928562) 1000000)
    (by decide) (by decide) (by decide) (by decide) (by decide) (by decide) (by decide)

/-- C1 counterexample: on the line "Elapsed time:  63.5 seconds" (two spaces
after the colon) the code indexes the empty token between the two spaces and
raises ValueError from float(), while the claim as stated (third
whitespace-separated token) returns 63.5. -/
theorem elapsed_time_claim_counterexample :
    get_raxmlng_elapsed_time [ofStr "Elapsed time:  63.5 seconds"] = .err .valueError ∧
    elapsedTimeClaim [ofStr "Elapsed time:  63.5 seconds"] = .ok (mkRat 635 10) := by
  constructor <;> decide

/-- C1 amended: ElapsedTime parses the first "Elapsed time:" line; without
"restarts" it takes the token at index 2 of the line split on single space
characters (empty tokens kept, so the third single-space-separated token,
not the third whitespace-separated one); with "restarts" it takes the token
at index 1 of the single-space split of the part after the (only) slash;
with no "Elapsed time:" line it raises ValueError. -/
theorem get_raxmlng_elapsed_time_amended (content : List Line) :
    (content.find? (fun l => isInfixB (ofStr "Elapsed time:") l) = none →
      get_raxmlng_elapsed_time content = .err .valueError)
    ∧ (∀ t0 t1 t2 rest q,
      content.find? (fun l => isInfixB (ofStr "Elapsed time:") l) =
        some (t0 ++ ' ' :: (t1 ++ ' ' :: (t2 ++ rest))) →
      isInfixB (ofStr "restarts") (t0 ++ ' ' :: (t1 ++ ' ' :: (t2 ++ rest))) = false →
      ' ' ∉ t0 → ' ' ∉ t1 → ' ' ∉ t2 →
      (rest = [] ∨ ∃ r, rest = ' ' :: r) →
      pyFloat? t2 = some q →
      get_raxmlng_elapsed_time content = .ok q)
    ∧ (∀ a b0 b1 rest q,
      content.find? (fun l => isInfixB (ofStr "Elapsed time:") l) =
        some (a ++ '/' :: (b0 ++ ' ' :: (b1 ++ rest))) →
      isInfixB (ofStr "restarts") (a ++ '/' :: (b0 ++ ' ' :: (b1 ++ rest))) = true →
      '/' ∉ a → '/' ∉ b0 → '/' ∉ b1 → '/' ∉ rest → ' ' ∉ b0 → ' ' ∉ b1 →
      (rest = [] ∨ ∃ r, rest = ' ' :: r) →
      pyFloat? b1 = some q →
      get_raxmlng_elapsed_time content = .ok q) := by
  refine ⟨?_, ?_, ?_⟩
  · intro h
    unfold get_raxmlng_elapsed_time
    rw [h]
  · intro t0 t1 t2 rest q hfind hre h0 h1 h2 hrest hq
    have hidx : (pySplit ' ' (t0 ++ ' ' :: (t1 ++ ' ' :: (t2 ++ rest))))[2]? = some t2 := by
      rw [pySplit_append_cons _ _ _ h0, pySplit_append_cons _ _ _ h1]
      rcases hrest with h | ⟨r, h⟩
      · subst h
        rw [List.append_nil, pySplit_of_not_mem _ _ h2]
        rfl
      · subst h
        rw [pySplit_append_cons _ _ _ h2]
        simp
    unfold get_raxmlng_elapsed_time
    rw [hfind]
    unfold get_raxmlng_time_from_line
    simp only [hre, Bool.false_eq_true, if_false, hidx, hq]
  · intro a b0 b1 rest q hfind hre ha hb0 hb1 hbr hsb0 hsb1 hrest hq
    have hnB : '/' ∉ (b0 ++ ' ' :: (b1 ++ rest)) := by
      intro hm
      rcases List.mem_append.mp hm with h | hm2
      · exact hb0 h
      rcases List.mem_cons.mp hm2 with h | hm3
      · exact absurd h (by decide)
      rcases List.mem_append.mp hm3 with h | h
      · exact hb1 h
      · exact hbr h
    have hslash : pySplit '/' (a ++ '/' :: (b0 ++ ' ' :: (b1 ++ rest))) =
        [a, b0 ++ ' ' :: (b1 ++ rest)] := by
      rw [pySplit_append_cons _ _ _ ha, pySplit_of_not_mem _ _ hnB]
    have hidx : (pySplit ' ' (b0 ++ ' ' :: (b1 ++ rest)))[1]? = some b1 := by
      rw [pySplit_append_cons _ _ _ hsb0]
      rcases hrest with h | ⟨r, h⟩
      · subst h
        rw [List.append_nil, pySplit_of_not_mem _ _ hsb1]
        rfl
      · subst h
        rw [pySplit_append_cons _ _ _ hsb1]
        simp
    unfold get_raxmlng_elapsed_time
    rw [hfind]
    unfold get_raxmlng_time_from_line
    simp only [hre, if_true, hslash, hidx, hq]

/-- C1 witness: the two example lines of the specification, evaluated
through the amended theorem. -/
theorem get_raxmlng_elapsed_time_amended_witness :
    get_raxmlng_elapsed_time [ofStr "Elapsed time: 63514.086 seconds"] =
      .ok (mkRat 63514086 1000) ∧
    get_raxmlng_elapsed_time
      [ofStr "Elapsed time: 5562.869 seconds (this run) / 91413.668 seconds (total with restarts)"] =
      .ok (mkRat 91413668 1000) :=
  ⟨(get_raxmlng_elapsed_time_amended [ofStr "Elapsed time: 63514.086 seconds"]).2.1
      (ofStr "Elapsed") (ofStr "time:") (ofStr "63514.086") (ofStr " seconds")
      (mkRat 63514086 1000) (by decide) (by decide) (by decide) (by decide) (by decide)
      (Or.inr ⟨ofStr "seconds", by decide⟩) (by decide),
   (get_raxmlng_elapsed_time_amended
      [ofStr "Elapsed time: 5562.869 seconds (this run) / 91413.668 seconds (total with restarts)"]).2.2
      (ofStr "Elapsed time: 5562.869 seconds (this run) ") [] (ofStr "91413.668")
      (ofStr " seconds (total with restarts)") (mkRat 91413668 1000)
      (by decide) (by decide) (by decide) (by decide) (by decide) (by decide) (by decide)
      (by decide) (Or.inr ⟨ofStr "seconds (total with restarts)", by decide⟩) (by decide)⟩

theorem sprStep_foldl (content : List Line) : ∀ s f : Nat,
    content.foldl sprStep (s, f) =
      ((content.filterMap (fun l =>
          if isInfixB (ofStr "SLOW spr round") l then searchSpr (ofStr "SLOW") l
          else none)).foldl max s,
       (content.filterMap (fun l =>
          if isInfixB (ofStr "FAST spr round") l then searchSpr (ofStr "FAST") l
          else none)).foldl max f) := by
  induction content with
  | nil => intro s f; rfl
  | cons l ls ih =>
    intro s f
    cases hsl : isInfixB (ofStr "SLOW spr round") l <;>
      cases hfl : isInfixB (ofStr "FAST spr round") l <;>
      cases hss : searchSpr (ofStr "SLOW") l <;>
      cases hfs : searchSpr (ofStr "FAST") l <;>
      simp only [List.foldl_cons, List.filterMap_cons, sprStep, hsl, hfl, hss, hfs,
        if_true, if_false, Bool.false_eq_true, ite_true, ite_false] <;>
      rw [ih]

/-- C3 counterexample: the line with a tab between SLOW and spr is matched
by the flexible-whitespace regex (captured round 4) but does not contain the
literal single-space substring, so the code returns (0, 0) while the claim
as stated returns (4, 0). -/
theorem spr_rounds_claim_counterexample :
    get_raxmlng_num_spr_rounds [ofStr "SLOW\tspr round 4"] = (0, 0) ∧
    sprRoundCountsClaim [ofStr "SLOW\tspr round 4"] = (4, 0) := by
  constructor <;> decide

/-- C3 amended: each component is the maximum captured round number over the
lines that both contain the literal single-space substring of the category
and match the flexible-whitespace regex, 0 when there is none; no input
raises an error. -/
theorem get_raxmlng_num_spr_rounds_amended (content : List Line) :
    get_raxmlng_num_spr_rounds content = sprRoundCountsAmended content :=
  sprStep_foldl content 0 0

theorem mem_dropWhile_of_mem {c : Char} {p : Char → Bool} :
    ∀ {l : Line}, c ∈ l → p c = false → c ∈ l.dropWhile p := by
  intro l
  induction l with
  | nil => intro h _; exact absurd h (List.not_mem_nil c)
  | cons d ds ih =>
    intro hm hp
    rw [List.dropWhile_cons]
    rcases List.mem_cons.mp hm with h | h
    · subst h
      simp [hp]
    · by_cases hd : p d = true
      · simp only [hd, if_true]
        exact ih h hp
      · simp only [Bool.not_eq_true] at hd
        simp [hd]
        exact Or.inr h

theorem mem_pyStrip_of_not_ws {c : Char} {l : Line} (hm : c ∈ l)
    (hw : isWS c = false) : c ∈ pyStrip l := by
  unfold pyStrip
  rw [List.mem_reverse]
  apply mem_dropWhile_of_mem _ hw
  rw [List.mem_reverse]
  exact mem_dropWhile_of_mem hm hw

theorem digitsVal?_eq_none_of_colon {ds : Line} (h : ':' ∈ ds) :
    digitsVal? ds = none := by
  have hall : ds.all Char.isDigit = false := by
    cases hd : ds.all Char.isDigit
    · rfl
    · have := List.all_eq_true.mp hd ':' h
      exact absurd this (by decide)
  unfold digitsVal?
  rw [hall]
  simp

theorem pyInt?_eq_none_of_colon (y : Line) (hy : ':' ∈ y) : pyInt? y = none := by
  have h2 : ':' ∈ pyStrip y := mem_pyStrip_of_not_ws hy (by decide)
  unfold pyInt?
  split
  · next ds heq =>
    rw [heq] at h2
    rcases List.mem_cons.mp h2 with h | h
    · exact absurd h (by decide)
    · rw [digitsVal?_eq_none_of_colon h]
      rfl
  · next ds heq =>
    rw [heq] at h2
    rcases List.mem_cons.mp h2 with h | h
    · exact absurd h (by decide)
    · rw [digitsVal?_eq_none_of_colon h]
      rfl
  · next s _ _ =>
    rw [digitsVal?_eq_none_of_colon h2]
    rfl

theorem joinSep_pySplit (sep : Char) (l : Line) : joinSep sep (pySplit sep l) = l := by
  induction l with
  | nil => rfl
  | cons c cs ih =>
    rw [pySplit]
    cases hp : pySplit sep cs with
    | nil => exact absurd hp (pySplit_ne_nil sep cs)
    | cons p ps =>
      rw [hp] at ih
      cases h : (c == sep) with
      | true =>
        have hc : c = sep := beq_iff_eq.mp h
        simp only [if_true]
        show joinSep sep ([] :: p :: ps) = c :: cs
        have hj : joinSep sep ([] :: p :: ps) = sep :: joinSep sep (p :: ps) := rfl
        rw [hj, ih, hc]
      | false =>
        simp only [Bool.false_eq_true, if_false]
        cases ps with
        | nil =>
          show joinSep sep [c :: p] = c :: cs
          have hj : joinSep sep [c :: p] = c :: p := rfl
          have ihp : p = cs := ih
          rw [hj, ihp]
        | cons p2 ps2 =>
          show joinSep sep ((c :: p) :: p2 :: ps2) = c :: cs
          have hj : joinSep sep ((c :: p) :: p2 :: ps2) =
              c :: (p ++ sep :: joinSep sep (p2 :: ps2)) := rfl
          have ih2 : p ++ sep :: joinSep sep (p2 :: ps2) = cs := ih
          rw [hj, ih2]

theorem pySplit1_eq (sep : Char) (l : Line) :
    pySplit1 sep l =
      match pySplit sep l with
      | [] => [l]
      | [a] => [a]
      | a :: rest => [a, joinSep sep rest] := by
  induction l with
  | nil => rfl
  | cons c cs ih =>
    rw [pySplit1, pySplit]
    cases hp : pySplit sep cs with
    | nil => exact absurd hp (pySplit_ne_nil sep cs)
    | cons p ps =>
      cases h : (c == sep) with
      | true =>
        simp only [if_true]
        show [[], cs] = [[], joinSep sep (p :: ps)]
        have := joinSep_pySplit sep cs
        rw [hp] at this
        rw [this]
      | false =>
        simp only [Bool.false_eq_true, if_false]
        rw [ih, hp]
        cases ps with
        | nil => rfl
        | cons p2 ps2 => rfl

theorem parsimony_line_eq (l : Line) : parsimonyLineVal? l = parsimonyLineClaimVal? l := by
  unfold parsimonyLineVal? parsimonyLineClaimVal?
  rw [pySplit1_eq]
  cases hp : pySplit ':' l with
  | nil => exact absurd hp (pySplit_ne_nil ':' l)
  | cons p ps =>
    cases ps with
    | nil => rfl
    | cons p2 ps2 =>
      cases ps2 with
      | nil => rfl
      | cons p3 ps3 =>
        show none = pyInt? (pyStrip (joinSep ':' (p2 :: p3 :: ps3)))
        have hcolon : ':' ∈ joinSep ':' (p2 :: p3 :: ps3) := by
          have hj : joinSep ':' (p2 :: p3 :: ps3) =
              p2 ++ ':' :: joinSep ':' (p3 :: ps3) := rfl
          rw [hj]
          exact List.mem_append.mpr (Or.inr (List.mem_cons_self _ _))
        rw [pyInt?_eq_none_of_colon _ (mem_pyStrip_of_not_ws hcolon (by decide))]

/-- C6 (confirmed): ParsimonyScores returns, in file order, the integer
obtained from every line containing "Parsimony score" by splitting on the
first colon and parsing the trimmed remainder (the exactly-two-parts colon
unpacking of the source agrees with this on every input, raising in exactly
the same cases), and the empty sequence when no line matches. -/
theorem get_all_parsimony_scores_spec (content : List Line) :
    get_all_parsimony_scores content = parsimonyScoresClaim content := by
  induction content with
  | nil => rfl
  | cons l ls ih =>
    rw [get_all_parsimony_scores, parsimonyScoresClaim, parsimony_line_eq l, ih]

theorem isPrefixB_append_left : ∀ (l x y : Line),
    isPrefixB (l ++ x) (l ++ y) = isPrefixB x y := by
  intro l
  induction l with
  | nil => intro x y; rfl
  | cons c cs ih =>
    intro x y
    show isPrefixB (c :: (cs ++ x)) (c :: (cs ++ y)) = isPrefixB x y
    have hj : isPrefixB (c :: (cs ++ x)) (c :: (cs ++ y)) =
        ((c == c) && isPrefixB (cs ++ x) (cs ++ y)) := rfl
    rw [hj, ih]
    simp

theorem underDir_sibling_trees (tmpdir : Line) :
    underDir tmpdir (tmpdir ++ ofStr ".trees") = false := by
  unfold underDir
  rw [isPrefixB_append_left tmpdir ['/'] (ofStr ".trees")]
  rfl

/-- C2 (code_bug): the tree file is written at the path tmpdir ++ ".trees",
which is a sibling of the temporary directory, not inside it, because the
source concatenates the directory name and the suffix without a path
separator.  On every exit path, normal return and tool exception alike, the
scoped cleanup removes only the directory, so the file the call created is
still present in the final state, contradicting the claim that no created
file remains. -/
theorem rel_rfdistance_leaves_trees_file (raxmlng : ToolOutcome)
    (tmpdir ns nf : Line) (fs : FS) :
    (tmpdir ++ ofStr ".trees", pyStrip ns ++ '\n' :: pyStrip nf) ∈
      (rel_rfdistance_starting_final raxmlng tmpdir ns nf fs).2.files ∧
    tmpdir ∉ (rel_rfdistance_starting_final raxmlng tmpdir ns nf fs).2.dirs := by
  have hmem : (tmpdir ++ ofStr ".trees", pyStrip ns ++ '\n' :: pyStrip nf) ∈
      (rmtreeFS tmpdir (writeFS (tmpdir ++ ofStr ".trees")
        (pyStrip ns ++ '\n' :: pyStrip nf) (mkdirFS tmpdir fs))).files := by
    unfold rmtreeFS writeFS mkdirFS
    apply List.mem_filter.mpr
    refine ⟨List.mem_cons_self _ _, ?_⟩
    rw [underDir_sibling_trees tmpdir]
    rfl
  have hdir : tmpdir ∉
      (rmtreeFS tmpdir (writeFS (tmpdir ++ ofStr ".trees")
        (pyStrip ns ++ '\n' :: pyStrip nf) (mkdirFS tmpdir fs))).dirs := by
    intro hm
    unfold rmtreeFS writeFS mkdirFS at hm
    have := (List.mem_filter.mp hm).2
    simp at this
  cases raxmlng with
  | ok a r t => exact ⟨hmem, hdir⟩
  | raised => exact ⟨hmem, hdir⟩

/-- C8 (confirmed): every extractor of the parser is a pure function of the
line sequence in this embedding, so evaluating any of them twice on the same
unchanged lines yields identical results; no state is carried between
calls. -/
theorem extractors_deterministic (content : List Line) :
    get_raxmlng_llh content = get_raxmlng_llh content ∧
    get_raxmlng_starting_llh content = get_raxmlng_starting_llh content ∧
    get_all_raxmlng_llhs content = get_all_raxmlng_llhs content ∧
    get_best_raxmlng_llh content = get_best_raxmlng_llh content ∧
    get_raxmlng_elapsed_time content = get_raxmlng_elapsed_time content ∧
    get_raxmlng_runtimes content = get_raxmlng_runtimes content ∧
    get_raxmlng_num_spr_rounds content = get_raxmlng_num_spr_rounds content ∧
    get_all_parsimony_scores content = get_all_parsimony_scores content ∧
    get_model_parameter_estimates content = get_model_parameter_estimates content ∧
    get_patterns_gaps_invariant content = get_patterns_gaps_invariant content :=
  ⟨rfl, rfl, rfl, rfl, rfl, rfl, rfl, rfl, rfl, rfl⟩

theorem pyMax_eq_or (a x : ℚ) : pyMax a x = a ∨ pyMax a x = x := by
  unfold pyMax
  split
  · exact Or.inr rfl
  · exact Or.inl rfl

theorem left_le_pyMax (a x : ℚ) : a ≤ pyMax a x := by
  unfold pyMax
  split
  · next h => exact le_of_lt h
  · exact le_refl a

theorem right_le_pyMax (a x : ℚ) : x ≤ pyMax a x := by
  unfold pyMax
  split
  · exact le_refl x
  · next h => exact le_of_not_lt h

theorem pyMax_foldl_mem : ∀ (qs : List ℚ) (q : ℚ), qs.foldl pyMax q ∈ q :: qs := by
  intro qs
  induction qs with
  | nil => intro q; exact List.mem_cons_self q []
  | cons x xs ih =>
    intro q
    show xs.foldl pyMax (pyMax q x) ∈ q :: x :: xs
    rcases List.mem_cons.mp (ih (pyMax q x)) with he | hm
    · rcases pyMax_eq_or q x with h1 | h1
      · rw [h1] at he
        rw [h1, he]
        exact List.mem_cons_self _ _
      · rw [h1] at he
        rw [h1, he]
        exact List.mem_cons_of_mem _ (List.mem_cons_self _ _)
    · exact List.mem_cons_of_mem _ (List.mem_cons_of_mem _ hm)

theorem le_pyMax_foldl : ∀ (qs : List ℚ) (q : ℚ), ∀ r ∈ q :: qs, r ≤ qs.foldl pyMax q := by
  intro qs
  induction qs with
  | nil =>
    intro q r hr
    rcases List.mem_cons.mp hr with h | h
    · exact h ▸ le_refl q
    · exact absurd h (List.not_mem_nil r)
  | cons x xs ih =>
    intro q r hr
    show r ≤ xs.foldl pyMax (pyMax q x)
    have hq : pyMax q x ≤ xs.foldl pyMax (pyMax q x) :=
      ih (pyMax q x) _ (List.mem_cons_self _ _)
    rcases List.mem_cons.mp hr with rfl | hm
    · exact le_trans (left_le_pyMax _ _) hq
    · rcases List.mem_cons.mp hm with rfl | hm2
      · exact le_trans (right_le_pyMax _ _) hq
      · exact ih (pyMax q x) r (List.mem_cons_of_mem _ hm2)

/-- C7 (confirmed): whenever AllLogLikelihoods is nonempty,
BestLogLikelihood returns its maximum element (a member at least as large
as every member); on an empty sequence it raises ValueError, as Python max
of an empty sequence does. -/
theorem get_best_raxmlng_llh_spec (content : List Line) :
    (get_all_raxmlng_llhs content = [] →
      get_best_raxmlng_llh content = .err .valueError)
    ∧ (get_all_raxmlng_llhs content ≠ [] →
      ∃ q, get_best_raxmlng_llh content = .ok q ∧
        q ∈ get_all_raxmlng_llhs content ∧
        ∀ r ∈ get_all_raxmlng_llhs content, r ≤ q) := by
  constructor
  · intro h
    unfold get_best_raxmlng_llh
    rw [h]
  · intro h
    cases hall : get_all_raxmlng_llhs content with
    | nil => exact absurd hall h
    | cons q qs =>
      refine ⟨qs.foldl pyMax q, ?_, ?_, ?_⟩
      · unfold get_best_raxmlng_llh
        rw [hall]
      · exact pyMax_foldl_mem qs q
      · exact le_pyMax_foldl qs q

/-- C7 witness: the three-value example of the specification, with maximum
-95.5, evaluated through the theorem. -/
theorem get_best_raxmlng_llh_spec_witness :
    get_all_raxmlng_llhs finalLlhExampleLog ≠ [] ∧
    (∃ q, get_best_raxmlng_llh finalLlhExampleLog = .ok q ∧
      q ∈ get_all_raxmlng_llhs finalLlhExampleLog ∧
      ∀ r ∈ get_all_raxmlng_llhs finalLlhExampleLog, r ≤ q) :=
  ⟨by decide, (get_best_raxmlng_llh_spec finalLlhExampleLog).2 (by decide)⟩

theorem runtimesAux_rel (content : List Line) :
    (content.find? (fun l => isInfixB (ofStr "Elapsed time:") l) = none →
      runtimesAux content = .ok [])
    ∧ (∀ line, content.find? (fun l => isInfixB (ofStr "Elapsed time:") l) = some line →
      (∀ e, get_raxmlng_time_from_line line = .err e → runtimesAux content = .err e)
      ∧ (∀ t, get_raxmlng_time_from_line line = .ok t →
        (∃ ts, runtimesAux content = .ok (t :: ts)) ∨
        (∃ e, runtimesAux content = .err e))) := by
  induction content with
  | nil =>
    constructor
    · intro _; rfl
    · intro line h; simp at h
  | cons l ls ih =>
    cases hM : isInfixB (ofStr "Elapsed time:") l with
    | false =>
      have hfind : (l :: ls).find? (fun x => isInfixB (ofStr "Elapsed time:") x) =
          ls.find? (fun x => isInfixB (ofStr "Elapsed time:") x) :=
        List.find?_cons_of_neg _ (by simp [hM])
      have haux : runtimesAux (l :: ls) = runtimesAux ls := by
        rw [runtimesAux]
        simp [hM]
      rw [hfind, haux]
      exact ih
    | true =>
      have hfind : (l :: ls).find? (fun x => isInfixB (ofStr "Elapsed time:") x) = some l :=
        List.find?_cons_of_pos _ hM
      rw [hfind]
      constructor
      · intro h; simp at h
      · intro line hline
        have hl : line = l := by
          injection hline with hh
          exact hh.symm
        subst hl
        constructor
        · intro e he
          rw [runtimesAux]
          simp [hM, he]
        · intro t ht
          have hbody : runtimesAux (line :: ls) =
              match runtimesAux ls with
              | .ok ts => .ok (t :: ts)
              | .err e => .err e := by
            rw [runtimesAux]
            simp [hM, ht]
          cases hls : runtimesAux ls with
          | ok ts =>
            left
            exact ⟨ts, by rw [hbody, hls]⟩
          | err e =>
            right
            exact ⟨e, by rw [hbody, hls]⟩

/-- C10 counterexample: with a well-formed first elapsed-time line and a
malformed second one, ElapsedTime returns 1.0 while AllRuntimes raises
ValueError, so the two functions do not raise on exactly the same inputs. -/
theorem elapsed_runtimes_claim_counterexample :
    get_raxmlng_elapsed_time
      [ofStr "Elapsed time: 1.0 seconds", ofStr "Elapsed time: bad"] = .ok (mkRat 1 1) ∧
    get_raxmlng_runtimes
      [ofStr "Elapsed time: 1.0 seconds", ofStr "Elapsed time: bad"] = .err .valueError := by
  constructor <;> decide

/-- C10 amended: whenever AllRuntimes succeeds, ElapsedTime returns exactly
the first element of its result; whenever ElapsedTime raises, AllRuntimes
raises too; and on inputs with no "Elapsed time:" line both raise
ValueError.  AllRuntimes may additionally raise on inputs where ElapsedTime
succeeds, namely when a later elapsed-time line is malformed. -/
theorem elapsed_head_of_runtimes_amended (content : List Line) :
    (∀ t ts, get_raxmlng_runtimes content = .ok (t :: ts) →
      get_raxmlng_elapsed_time content = .ok t)
    ∧ (∀ e, get_raxmlng_elapsed_time content = .err e →
      ∃ e2, get_raxmlng_runtimes content = .err e2)
    ∧ (content.find? (fun l => isInfixB (ofStr "Elapsed time:") l) = none →
      get_raxmlng_elapsed_time content = .err .valueError ∧
      get_raxmlng_runtimes content = .err .valueError) := by
  obtain ⟨hnone, hsome⟩ := runtimesAux_rel content
  refine ⟨?_, ?_, ?_⟩
  · intro t ts hok
    have haux : runtimesAux content = .ok (t :: ts) := by
      unfold get_raxmlng_runtimes at hok
      cases h : runtimesAux content with
      | err e =>
        rw [h] at hok
        simp at hok
      | ok ts2 =>
        cases ts2 with
        | nil =>
          rw [h] at hok
          simp at hok
        | cons t2 ts2 =>
          rw [h] at hok
          exact hok
    cases hf : content.find? (fun l => isInfixB (ofStr "Elapsed time:") l) with
    | none =>
      rw [hnone hf] at haux
      simp at haux
    | some line =>
      obtain ⟨herr, hok2⟩ := hsome line hf
      unfold get_raxmlng_elapsed_time
      rw [hf]
      show get_raxmlng_time_from_line line = .ok t
      cases htl : get_raxmlng_time_from_line line with
      | err e =>
        rw [herr e htl] at haux
        simp at haux
      | ok t2 =>
        rcases hok2 t2 htl with ⟨ts2, h2⟩ | ⟨e, h2⟩
        · rw [h2] at haux
          injection haux with hh
          injection hh with h3 _
          rw [h3]
        · rw [h2] at haux
          simp at haux
  · intro e he
    cases hf : content.find? (fun l => isInfixB (ofStr "Elapsed time:") l) with
    | none =>
      refine ⟨.valueError, ?_⟩
      unfold get_raxmlng_runtimes
      rw [hnone hf]
    | some line =>
      unfold get_raxmlng_elapsed_time at he
      rw [hf] at he
      obtain ⟨herr, _⟩ := hsome line hf
      refine ⟨e, ?_⟩
      unfold get_raxmlng_runtimes
      rw [herr e he]
  · intro hf
    constructor
    · unfold get_raxmlng_elapsed_time
      rw [hf]
    · unfold get_raxmlng_runtimes
      rw [hnone hf]

/-- C10 witness: a log with two well-formed elapsed-time lines, where
AllRuntimes returns [1.0, 2.0] and the amended theorem yields ElapsedTime
= 1.0. -/
theorem elapsed_head_of_runtimes_amended_witness :
    get_raxmlng_elapsed_time
      [ofStr "Elapsed time: 1.0 seconds", ofStr "Elapsed time: 2.0 seconds"] =
      .ok (mkRat 1 1) :=
  (elapsed_head_of_runtimes_amended
      [ofStr "Elapsed time: 1.0 seconds", ofStr "Elapsed time: 2.0 seconds"]).1
    (mkRat 1 1) [mkRat 2 1] (by decide)

theorem isPrefixB_head_ne (a b : Char) (pa pb l : Line) (hab : a ≠ b)
    (ha : isPrefixB (a :: pa) l = true) : isPrefixB (b :: pb) l = false := by
  cases l with
  | nil => rfl
  | cons c cs =>
    have e1 : isPrefixB (a :: pa) (c :: cs) = ((a == c) && isPrefixB pa cs) := rfl
    rw [e1] at ha
    simp only [Bool.and_eq_true, beq_iff_eq] at ha
    have h1 : a = c := ha.1
    have e2 : isPrefixB (b :: pb) (c :: cs) = ((b == c) && isPrefixB pb cs) := rfl
    rw [e2]
    have hbc : (b == c) = false :=
      beq_eq_false_iff_ne.mpr (fun e => hab (h1 ▸ e.symm ▸ rfl))
    rw [hbc]
    rfl

theorem mpeScan_decompose : ∀ (content : List Line)
    (st : Option Line × Option Line × Option Line),
    mpeScan st content =
      combineO
        (numCatScan (ofStr "Rate heterogeneity") colonSuffix1? st.1 content)
        (numCatScan (ofStr "Base frequencies") colonSuffix1? st.2.1 content)
        (numCatScan (ofStr "Substitution rates") colonSuffix1? st.2.2 content) := by
  intro content
  induction content with
  | nil => intro st; rfl
  | cons l ls ih =>
    intro st
    cases h1 : isPrefixB (ofStr "Rate heterogeneity") l with
    | true =>
      have h2 : isPrefixB (ofStr "Base frequencies") l = false :=
        isPrefixB_head_ne 'R' 'B' (ofStr "ate heterogeneity") (ofStr "ase frequencies") l
          (by decide) h1
      have h3 : isPrefixB (ofStr "Substitution rates") l = false :=
        isPrefixB_head_ne 'R' 'S' (ofStr "ate heterogeneity") (ofStr "ubstitution rates") l
          (by decide) h1
      have hcat2 : numCatScan (ofStr "Base frequencies") colonSuffix1? st.2.1 (l :: ls) =
          numCatScan (ofStr "Base frequencies") colonSuffix1? st.2.1 ls := by
        rw [numCatScan]
        simp [h2]
      have hcat3 : numCatScan (ofStr "Substitution rates") colonSuffix1? st.2.2 (l :: ls) =
          numCatScan (ofStr "Substitution rates") colonSuffix1? st.2.2 ls := by
        rw [numCatScan]
        simp [h3]
      cases hc : colonSuffix1? l with
      | none =>
        have hstep : mpeStep st l = .err .valueError := by
          unfold mpeStep mpeUpd
          simp [h1, hc]
        have hcat1 : numCatScan (ofStr "Rate heterogeneity") colonSuffix1? st.1 (l :: ls) =
            .err .valueError := by
          rw [numCatScan]
          simp [h1, hc]
        rw [mpeScan, hstep, hcat1]
        rfl
      | some r =>
        have hstep : mpeStep st l = .ok (some r, st.2.1, st.2.2) := by
          unfold mpeStep mpeUpd
          simp [h1, h2, h3, hc]
        have hcat1 : numCatScan (ofStr "Rate heterogeneity") colonSuffix1? st.1 (l :: ls) =
            numCatScan (ofStr "Rate heterogeneity") colonSuffix1? (some r) ls := by
          rw [numCatScan]
          simp [h1, hc]
        rw [mpeScan, hstep, hcat1, hcat2, hcat3]
        exact ih (some r, st.2.1, st.2.2)
    | false =>
      cases h2 : isPrefixB (ofStr "Base frequencies") l with
      | true =>
        have h3 : isPrefixB (ofStr "Substitution rates") l = false :=
          isPrefixB_head_ne 'B' 'S' (ofStr "ase frequencies") (ofStr "ubstitution rates") l
            (by decide) h2
        have hcat1 : numCatScan (ofStr "Rate heterogeneity") colonSuffix1? st.1 (l :: ls) =
            numCatScan (ofStr "Rate heterogeneity") colonSuffix1? st.1 ls := by
          rw [numCatScan]
          simp [h1]
        have hcat3 : numCatScan (ofStr "Substitution rates") colonSuffix1? st.2.2 (l :: ls) =
            numCatScan (ofStr "Substitution rates") colonSuffix1? st.2.2 ls := by
          rw [numCatScan]
          simp [h3]
        cases hc : colonSuffix1? l with
        | none =>
          have hstep : mpeStep st l = .err .valueError := by
            unfold mpeStep mpeUpd
            simp [h1, h2, hc]
          have hcat2 : numCatScan (ofStr "Base frequencies") colonSuffix1? st.2.1 (l :: ls) =
              .err .valueError := by
            rw [numCatScan]
            simp [h2, hc]
          rw [mpeScan, hstep, hcat1, hcat2]
          cases hx : numCatScan (ofStr "Rate heterogeneity") colonSuffix1? st.1 ls <;> rfl
        | some r =>
          have hstep : mpeStep st l = .ok (st.1, some r, st.2.2) := by
            unfold mpeStep mpeUpd
            simp [h1, h2, h3, hc]
          have hcat2 : numCatScan (ofStr "Base frequencies") colonSuffix1? st.2.1 (l :: ls) =
              numCatScan (ofStr "Base frequencies") colonSuffix1? (some r) ls := by
            rw [numCatScan]
            simp [h2, hc]
          rw [mpeScan, hstep, hcat1, hcat2, hcat3]
          exact ih (st.1, some r, st.2.2)
      | false =>
        have hcat1 : numCatScan (ofStr "Rate heterogeneity") colonSuffix1? st.1 (l :: ls) =
            numCatScan (ofStr "Rate heterogeneity") colonSuffix1? st.1 ls := by
          rw [numCatScan]
          simp [h1]
        have hcat2 : numCatScan (ofStr "Base frequencies") colonSuffix1? st.2.1 (l :: ls) =
            numCatScan (ofStr "Base frequencies") colonSuffix1? st.2.1 ls := by
          rw [numCatScan]
          simp [h2]
        cases h3 : isPrefixB (ofStr "Substitution rates") l with
        | true =>
          cases hc : colonSuffix1? l with
          | none =>
            have hstep : mpeStep st l = .err .valueError := by
              unfold mpeStep mpeUpd
              simp [h1, h2, h3, hc]
            have hcat3 : numCatScan (ofStr "Substitution rates") colonSuffix1? st.2.2 (l :: ls) =
                .err .valueError := by
              rw [numCatScan]
              simp [h3, hc]
            rw [mpeScan, hstep, hcat1, hcat2, hcat3]
            cases hx : numCatScan (ofStr "Rate heterogeneity") colonSuffix1? st.1 ls <;>
              cases hy : numCatScan (ofStr "Base frequencies") colonSuffix1? st.2.1 ls <;> rfl
          | some r =>
            have hstep : mpeStep st l = .ok (st.1, st.2.1, some r) := by
              unfold mpeStep mpeUpd
              simp [h1, h2, h3, hc]
            have hcat3 : numCatScan (ofStr "Substitution rates") colonSuffix1? st.2.2 (l :: ls) =
                numCatScan (ofStr "Substitution rates") colonSuffix1? (some r) ls := by
              rw [numCatScan]
              simp [h3, hc]
            rw [mpeScan, hstep, hcat1, hcat2, hcat3]
            exact ih (st.1, st.2.1, some r)
        | false =>
          have hstep : mpeStep st l = .ok st := by
            unfold mpeStep mpeUpd
            simp [h1, h2, h3]
          have hcat3 : numCatScan (ofStr "Substitution rates") colonSuffix1? st.2.2 (l :: ls) =
              numCatScan (ofStr "Substitution rates") colonSuffix1? st.2.2 ls := by
            rw [numCatScan]
            simp [h3]
          rw [mpeScan, hstep, hcat1, hcat2, hcat3]
          exact ih st

/-- C9 counterexample: with an earlier "Rate heterogeneity" line that has
no colon, the code raises ValueError on it, while the claim as stated reads
the last matching line and returns its colon-suffix GAMMA. -/
theorem model_parameter_estimates_claim_counterexample :
    get_model_parameter_estimates
      [ofStr "Rate heterogeneity", ofStr "Rate heterogeneity: GAMMA"] = .err .valueError ∧
    modelParamsClaim
      [ofStr "Rate heterogeneity", ofStr "Rate heterogeneity: GAMMA"] =
      (some (ofStr "GAMMA"), none, none) := by
  constructor <;> decide

/-- C9 amended: each component is the trimmed first-colon suffix of the last
line starting with its category prefix (later matching lines overwrite
earlier ones) and null when no line matches — never an error — provided
every matching line contains a colon; a matching line without a colon
raises ValueError. -/
theorem get_model_parameter_estimates_amended (content : List Line) :
    get_model_parameter_estimates content = modelParameterEstimatesAmended content :=
  mpeScan_decompose content (none, none, none)

theorem div100_eq_div (q : ℚ) : div100 q = q / 100 := by
  unfold div100
  rw [Rat.mkRat_eq_div, Nat.cast_mul, div_mul_eq_div_div, Rat.num_div_den]
  norm_num

theorem pgiScan_decompose : ∀ (content : List Line)
    (st : Option Int × Option ℚ × Option ℚ),
    pgiScan st content =
      combineO
        (numCatScan (ofStr "Alignment sites") sitesParse st.1 content)
        (numCatScan (ofStr "Gaps") pctParse st.2.1 content)
        (numCatScan (ofStr "Invariant sites") pctParse st.2.2 content) := by
  intro content
  induction content with
  | nil => intro st; rfl
  | cons l ls ih =>
    intro st
    cases h1 : isPrefixB (ofStr "Alignment sites") l with
    | true =>
      have h2 : isPrefixB (ofStr "Gaps") l = false :=
        isPrefixB_head_ne 'A' 'G' (ofStr "lignment sites") (ofStr "aps") l (by decide) h1
      have h3 : isPrefixB (ofStr "Invariant sites") l = false :=
        isPrefixB_head_ne 'A' 'I' (ofStr "lignment sites") (ofStr "nvariant sites") l
          (by decide) h1
      have hcat2 : numCatScan (ofStr "Gaps") pctParse st.2.1 (l :: ls) =
          numCatScan (ofStr "Gaps") pctParse st.2.1 ls := by
        rw [numCatScan]
        simp [h2]
      have hcat3 : numCatScan (ofStr "Invariant sites") pctParse st.2.2 (l :: ls) =
          numCatScan (ofStr "Invariant sites") pctParse st.2.2 ls := by
        rw [numCatScan]
        simp [h3]
      cases hc : sitesParse l with
      | none =>
        have hstep : pgiStep st l = .err .valueError := by
          unfold pgiStep
          simp [h1, hc]
        have hcat1 : numCatScan (ofStr "Alignment sites") sitesParse st.1 (l :: ls) =
            .err .valueError := by
          rw [numCatScan]
          simp [h1, hc]
        rw [pgiScan, hstep, hcat1]
        rfl
      | some p =>
        have hstep : pgiStep st l = .ok (some p, st.2.1, st.2.2) := by
          unfold pgiStep
          simp [h1, hc]
        have hcat1 : numCatScan (ofStr "Alignment sites") sitesParse st.1 (l :: ls) =
            numCatScan (ofStr "Alignment sites") sitesParse (some p) ls := by
          rw [numCatScan]
          simp [h1, hc]
        rw [pgiScan, hstep, hcat1, hcat2, hcat3]
        exact ih (some p, st.2.1, st.2.2)
    | false =>
      cases h2 : isPrefixB (ofStr "Gaps") l with
      | true =>
        have h3 : isPrefixB (ofStr "Invariant sites") l = false :=
          isPrefixB_head_ne 'G' 'I' (ofStr "aps") (ofStr "nvariant sites") l (by decide) h2
        have hcat1 : numCatScan (ofStr "Alignment sites") sitesParse st.1 (l :: ls) =
            numCatScan (ofStr "Alignment sites") sitesParse st.1 ls := by
          rw [numCatScan]
          simp [h1]
        have hcat3 : numCatScan (ofStr "Invariant sites") pctParse st.2.2 (l :: ls) =
            numCatScan (ofStr "Invariant sites") pctParse st.2.2 ls := by
          rw [numCatScan]
          simp [h3]
        cases hc : pctParse l with
        | none =>
          have hstep : pgiStep st l = .err .valueError := by
            unfold pgiStep
            simp [h1, h2, hc]
          have hcat2 : numCatScan (ofStr "Gaps") pctParse st.2.1 (l :: ls) =
              .err .valueError := by
            rw [numCatScan]
            simp [h2, hc]
          rw [pgiScan, hstep, hcat1, hcat2]
          cases hx : numCatScan (ofStr "Alignment sites") sitesParse st.1 ls <;> rfl
        | some g =>
          have hstep : pgiStep st l = .ok (st.1, some g, st.2.2) := by
            unfold pgiStep
            simp [h1, h2, hc]
          have hcat2 : numCatScan (ofStr "Gaps") pctParse st.2.1 (l :: ls) =
              numCatScan (ofStr "Gaps") pctParse (some g) ls := by
            rw [numCatScan]
            simp [h2, hc]
          rw [pgiScan, hstep, hcat1, hcat2, hcat3]
          exact ih (st.1, some g, st.2.2)
      | false =>
        have hcat1 : numCatScan (ofStr "Alignment sites") sitesParse st.1 (l :: ls) =
            numCatScan (ofStr "Alignment sites") sitesParse st.1 ls := by
          rw [numCatScan]
          simp [h1]
        have hcat2 : numCatScan (ofStr "Gaps") pctParse st.2.1 (l :: ls) =
            numCatScan (ofStr "Gaps") pctParse st.2.1 ls := by
          rw [numCatScan]
          simp [h2]
        cases h3 : isPrefixB (ofStr "Invariant sites") l with
        | true =>
          cases hc : pctParse l with
          | none =>
            have hstep : pgiStep st l = .err .valueError := by
              unfold pgiStep
              simp [h1, h2, h3, hc]
            have hcat3 : numCatScan (ofStr "Invariant sites") pctParse st.2.2 (l :: ls) =
                .err .valueError := by
              rw [numCatScan]
              simp [h3, hc]
            rw [pgiScan, hstep, hcat1, hcat2, hcat3]
            cases hx : numCatScan (ofStr "Alignment sites") sitesParse st.1 ls <;>
              cases hy : numCatScan (ofStr "Gaps") pctParse st.2.1 ls <;> rfl
          | some i =>
            have hstep : pgiStep st l = .ok (st.1, st.2.1, some i) := by
              unfold pgiStep
              simp [h1, h2, h3, hc]
            have hcat3 : numCatScan (ofStr "Invariant sites") pctParse st.2.2 (l :: ls) =
                numCatScan (ofStr "Invariant sites") pctParse (some i) ls := by
              rw [numCatScan]
              simp [h3, hc]
            rw [pgiScan, hstep, hcat1, hcat2, hcat3]
            exact ih (st.1, st.2.1, some i)
        | false =>
          have hstep : pgiStep st l = .ok st := by
            unfold pgiStep
            simp [h1, h2, h3]
          have hcat3 : numCatScan (ofStr "Invariant sites") pctParse st.2.2 (l :: ls) =
              numCatScan (ofStr "Invariant sites") pctParse st.2.2 ls := by
            rw [numCatScan]
            simp [h3]
          rw [pgiScan, hstep, hcat1, hcat2, hcat3]
          exact ih st

/-- C5 counterexample: on the example lines of the specification itself the
code raises ValueError — the Gaps line "Gaps: 12.5% ..." has no separate
percent token, so float() is applied to "12.5%" and fails — instead of
returning (933, 0.125, 0.40). -/
theorem patterns_gaps_invariant_claim_counterexample :
    get_patterns_gaps_invariant
      [ofStr "Alignment sites / patterns: 1940 / 933", ofStr "Gaps: 12.5% ...",
       ofStr "Invariant sites: 40.0% ..."] = .err .valueError ∧
    get_patterns_gaps_invariant
      [ofStr "Alignment sites / patterns: 1940 / 933", ofStr "Gaps: 12.5% ...",
       ofStr "Invariant sites: 40.0% ..."] ≠
      .ok (933, mkRat 125 1000, mkRat 40 100) := by
  constructor <;> decide

/-- C5 amended: patterns is the second slash-separated integer of the colon
suffix of the last "Alignment sites" line; gaps and invariant are the first
of the exactly-two space-separated tokens of the stripped colon suffix of
the last "Gaps" and "Invariant sites" lines, parsed as a float and divided
by 100 (so the percent sign must be a separate token: "Gaps: 12.5 %" gives
0.125, while "Gaps: 12.5% ..." raises ValueError); the call raises
ValueError when a matching line is malformed or when any of the three
values is still unset after the scan. -/
theorem get_patterns_gaps_invariant_amended (content : List Line) :
    get_patterns_gaps_invariant content = patternsGapsInvariantAmended content := by
  unfold get_patterns_gaps_invariant patternsGapsInvariantAmended
  rw [pgiScan_decompose content (none, none, none)]

end RaxmlngParser
